import Mathlib

/-!
Verification of the download–validate–place pipeline of the
Youtube-to-Mp3-Downloader repository (files `streamlit_app.py` and
`yt_to_mp3.py`), against its natural-language specification.

The Python code is shallowly embedded: strings are `List Char` / `String`,
subprocess calls are an oracle environment recording each external tool's
outcome, and the filesystem touched by one pipeline invocation (the scratch
temporary directory and the destination directory) is an explicit state
record threaded through the translated control flow.
-/

namespace YtMp3

/-- Characters removed by `safe_filename` (`streamlit_app.py` line 74,
the regex character class in the first `re.sub`). -/
def bannedChars : List Char :=
  ['\\', '/', '*', '?', ':', '"', '<', '>', '|']

/-- Whitespace as matched by the regex `\s` in `re.sub(r"\s+", " ", name)`
(`streamlit_app.py` line 75): space, tab, newline, carriage return,
vertical tab, form feed.  (Python's `\s` additionally matches some
non-ASCII Unicode whitespace; the claims under verification do not turn
on those code points, so the embedding fixes this decidable set.) -/
def pyIsSpace (c : Char) : Bool :=
  c == ' ' || c == '\t' || c == '\n' || c == '\r' || c == '\x0B' || c == '\x0C'

/-- Two adjacent characters do not form a whitespace run: the relation
holding between successive characters of a string with no run of more
than one consecutive whitespace character. -/
def noWsPair (a b : Char) : Prop :=
  ¬(pyIsSpace a = true ∧ pyIsSpace b = true)

instance (a b : Char) : Decidable (noWsPair a b) := by
  unfold noWsPair; infer_instance

/-- First step of `safe_filename` (`streamlit_app.py` line 74):
`re.sub(r"[\\/*?:\"<>|]", "", name)` deletes every banned character. -/
def removeBanned (name : List Char) : List Char :=
  name.filter (fun c => !(bannedChars.contains c))

/-- Character scan behind `re.sub(r"\s+", " ", name)`: `inRun` records
whether the previous character belonged to a whitespace run (whose single
replacement space has already been emitted). -/
def collapseWsAux (inRun : Bool) : List Char → List Char
  | [] => []
  | c :: cs =>
    if pyIsSpace c then
      if inRun then collapseWsAux true cs
      else ' ' :: collapseWsAux true cs
    else c :: collapseWsAux false cs

/-- The substitution `re.sub(r"\s+", " ", name)` of `streamlit_app.py`
line 75: every maximal run of whitespace is replaced by one space. -/
def collapseWs (l : List Char) : List Char :=
  collapseWsAux false l

/-- The `.strip()` call of `streamlit_app.py` line 75: remove leading and
trailing whitespace. -/
def stripWs (l : List Char) : List Char :=
  List.rdropWhile pyIsSpace (List.dropWhile pyIsSpace l)

/-- Python default value of `safe_filename`'s `max_length` parameter
(`streamlit_app.py` line 73). -/
def defaultMaxLength : Nat := 150

/-- The sanitizer `safe_filename` of `streamlit_app.py` lines 73–78:
delete banned characters, collapse whitespace runs to a single space and
strip the ends, then hard-truncate to `max_length` characters. -/
def safe_filename (name : List Char) (max_length : Nat) : List Char :=
  let n1 := removeBanned name
  let n2 := stripWs (collapseWs n1)
  if max_length < n2.length then n2.take max_length else n2

/-- String-level wrapper of `safe_filename` with the default length bound,
as used at `streamlit_app.py` lines 163, 168 and 171. -/
def safeFilenameStr (s : String) : String :=
  String.mk (safe_filename s.toList defaultMaxLength)

/-! ### External tool invocations (subprocess oracle) -/

/-- Outcome of one `subprocess.run` invocation: either the subprocess
completed (with a return code and captured stdout), or the call raised an
exception in the caller (timeout expired, tool failed to launch, …). -/
inductive ToolRes where
  | completed (returncode : Int) (stdout : String)
  | excThrown
deriving DecidableEq

/-- Environment of one pipeline run: whether `ffprobe` is on the PATH
(`shutil.which`, `streamlit_app.py` line 83), and the outcome each
external tool invocation would have on each file path. -/
structure ProbeEnv where
  ffprobeAvailable : Bool
  probeRun : String → ToolRes
  decodeRun : String → ToolRes

/-- Lower-casing of the captured stdout, `streamlit_app.py` line 101. -/
def lowerChars (l : List Char) : List Char :=
  l.map Char.toLower

/-- Whether a character list starts with the three characters `m`, `p`, `3`. -/
def startsWithMp3 : List Char → Bool
  | 'm' :: 'p' :: '3' :: _ => true
  | _ => false

/-- The Python membership test `"mp3" in out` over a character list. -/
def containsMp3Chars : List Char → Bool
  | [] => false
  | c :: rest => startsWithMp3 (c :: rest) || containsMp3Chars rest

/-- The acceptance test of `streamlit_app.py` lines 101–102:
`"mp3" in (completed.stdout or "").lower()`. -/
def containsMp3 (out : String) : Bool :=
  containsMp3Chars (lowerChars out.toList)

/-- The function `ffprobe_recognizes_mp3` of `streamlit_app.py` lines
81–104: `False` when `ffprobe` is not on the PATH; otherwise run
`ffprobe` on the file and report whether the lower-cased stdout contains
`"mp3"`; any exception (including `subprocess.TimeoutExpired` from the
15-second limit) yields `False`. -/
def ffprobe_recognizes_mp3 (env : ProbeEnv) (path : String) : Bool :=
  if env.ffprobeAvailable = false then false
  else
    match env.probeRun path with
    | ToolRes.completed _ out => containsMp3 out
    | ToolRes.excThrown => false

/-- The per-candidate validation of `streamlit_app.py` lines 139–151:
primary `ffprobe` check; if it did not accept, fall back to an `ffmpeg`
decode-to-null probe (20-second timeout) and accept iff its return code
is 0, with any exception meaning rejection.  Returns
`(accepted, fallbackDecodeRan)`; the second component records whether the
fallback `ffmpeg` invocation was reached. -/
def validateCandidate (env : ProbeEnv) (stem : String) : Bool × Bool :=
  let ok := ffprobe_recognizes_mp3 env (stem ++ ".mp3")
  if ok = false then
    match env.decodeRun (stem ++ ".mp3") with
    | ToolRes.completed rc _ => (rc == 0, true)
    | ToolRes.excThrown => (false, true)
  else (ok, false)

/-! ### Filesystem state of one invocation -/

/-- The filesystem as seen by one pipeline run: whether the scratch
temporary directory currently exists, the names of files inside it, and
the names of files in the destination directory. -/
structure FsState where
  tmpExists : Bool
  tmpFiles : List String
  destFiles : List String
deriving DecidableEq

/-- The `cand.unlink()` call of `streamlit_app.py` line 157 (failures are
swallowed; removing a name not present is a no-op on the name set). -/
def fsUnlinkTmp (s : FsState) (n : String) : FsState :=
  { s with tmpFiles := s.tmpFiles.erase n }

/-- The `os.replace(cand, dest)` call of `streamlit_app.py` line 174: the
source name leaves the scratch directory and the destination name becomes
present (if it already was, its content would be replaced but the name
set is unchanged). -/
def fsReplace (s : FsState) (src dst : String) : FsState :=
  { s with
    tmpFiles := s.tmpFiles.erase src,
    destFiles := if dst ∈ s.destFiles then s.destFiles else s.destFiles ++ [dst] }

/-- Teardown performed by `tempfile.TemporaryDirectory.__exit__` when the
`with` block of `streamlit_app.py` line 110 is left on any path: the
scratch directory and all remaining contents are deleted. -/
def fsRmTmpTree (s : FsState) : FsState :=
  { s with tmpExists := false, tmpFiles := [] }

/-! ### Collision-resolving placement -/

/-- The counter-suffixed name built by the f-string of `streamlit_app.py`
line 171: `f"{safe_filename(cand.stem)} ({i}).mp3"`. -/
def collisionName (stem : String) (i : Nat) : String :=
  stem ++ " (" ++ toString i ++ ").mp3"

/-- The `while dest.exists()` loop of `streamlit_app.py` lines 169–172,
starting from counter `i` and probing the (finite) destination listing.
`fuel` bounds the number of probes: on a finite directory listing of `n`
names, `n + 1` distinct probe names cannot all be taken, so the
pipeline always calls this with sufficient fuel; `none` models the loop
not completing within the given bound. -/
def findFree (dest : List String) (stem : String) : Nat → Nat → Option String
  | _, 0 => none
  | i, fuel + 1 =>
    let d := collisionName stem i
    if d ∈ dest then findFree dest stem (i + 1) fuel else some d

/-- The placement name computation of `streamlit_app.py` lines 163–172:
`safe_name = safe_filename(cand.stem) + ".mp3"`; if that name already
exists in the destination, count up from ` (1)` until a free name is
found.  `stem` is the already-sanitized stem. -/
def resolveDest (dest : List String) (stem : String) : Option String :=
  let base := stem ++ ".mp3"
  if base ∈ dest then findFree dest stem 1 (dest.length + 1) else some base

/-- The candidate loop of `streamlit_app.py` lines 137–182: validate each
candidate (given by its title stem; the scratch file is `stem ++ ".mp3"`);
rejected candidates are unlinked from the scratch directory and skipped;
accepted candidates are moved to a collision-free sanitized name in the
destination and appended to the accepted list.  The `none` branch of
`resolveDest` (exhausted probe bound) leaves the candidate unplaced,
mirroring the `except` branch of lines 181–182 in that the candidate is
then not accepted. -/
def processCandidates (env : ProbeEnv) : List String → FsState → List String × FsState
  | [], s => ([], s)
  | stem :: rest, s =>
    if (validateCandidate env stem).1 = false then
      processCandidates env rest (fsUnlinkTmp s (stem ++ ".mp3"))
    else
      match resolveDest s.destFiles (safeFilenameStr stem) with
      | none => processCandidates env rest s
      | some d =>
        let r := processCandidates env rest (fsReplace s (stem ++ ".mp3") d)
        (d :: r.1, r.2)

/-- The pipeline `download_and_validate` of `streamlit_app.py` lines
107–184.  `fetchResult` is the outcome of the external
`YoutubeDL.extract_info` call: an exception, or the lexicographically
sorted stems of the `*.mp3` files it left in the scratch directory
(line 134).  The `with tempfile.TemporaryDirectory()` block creates the
scratch directory first and deletes it on every exit path — including
when the fetch raises, in which case the exception propagates only after
cleanup.  Returns the propagated result and the final filesystem state. -/
def download_and_validate (env : ProbeEnv) (fetchResult : Except String (List String))
    (dest0 : List String) : Except String (List String) × FsState :=
  let s0 : FsState := { tmpExists := true, tmpFiles := [], destFiles := dest0 }
  match fetchResult with
  | Except.error e => (Except.error e, fsRmTmpTree s0)
  | Except.ok stems =>
    let r := processCandidates env stems { s0 with tmpFiles := stems.map (fun t => t ++ ".mp3") }
    (Except.ok r.1, fsRmTmpTree r.2)

/-! ### CLI front end (`yt_to_mp3.py`) -/

/-- The fields of the `ydl_opts` dictionary relevant to the claims
(`yt_to_mp3.py` lines 41–56 and `streamlit_app.py` lines 114–128). -/
structure YdlOpts where
  format : String
  noplaylist : Bool
  preferredcodec : String
  preferredquality : String
deriving DecidableEq

/-- The parsed CLI arguments of `parse_args` (`yt_to_mp3.py` lines
78–85): positional `url`, `--output`, `--quality` (a free string,
default `"192"`, with no membership check), and the `--no-playlist`
store-true flag. -/
structure CliArgs where
  url : String
  output : String
  quality : String
  noplaylist : Bool
deriving DecidableEq

/-- The `ydl_opts` dictionary built by `download_mp3` (`yt_to_mp3.py`
lines 41–56): `"noplaylist": False` is hard-coded and the quality string
is passed through verbatim as `preferredquality`. -/
def cliYdlOpts (prefer_quality : String) : YdlOpts :=
  { format := "bestaudio/best"
    noplaylist := false
    preferredcodec := "mp3"
    preferredquality := prefer_quality }

/-- The options the external `YoutubeDL` call is configured with when
`main` of `yt_to_mp3.py` (lines 88–100) runs: `main` performs no input
validation, its `if args.noplaylist: pass` branch has no effect, and it
calls `download_mp3(url, out_dir, prefer_quality=args.quality)`, which
unconditionally constructs `YoutubeDL(ydl_opts)` and downloads. -/
def cliMainFetchOpts (args : CliArgs) : YdlOpts :=
  cliYdlOpts args.quality

/-- The CLI run always reaches the external fetch call: `some opts` means
`YoutubeDL` is invoked with `opts`.  `yt_to_mp3.py` has no rejection path
between argument parsing and the `ydl.download` call (lines 88–99 and
33–63). -/
def cliRunsFetchWith (args : CliArgs) : Option YdlOpts :=
  some (cliMainFetchOpts args)

/-- The bitrate choices offered by the web UI selectbox
(`streamlit_app.py` line 219). -/
def streamlitBitrateOptions : List Nat := [128, 192, 256, 320]

/-! ### Concrete environments and inputs used in closed evaluations -/

/-- An environment in which `ffprobe` is present and reports `mp3` for
every file: every candidate passes the primary check. -/
def envAcceptAll : ProbeEnv :=
  { ffprobeAvailable := true
    probeRun := fun _ => ToolRes.completed 0 "mp3"
    decodeRun := fun _ => ToolRes.completed 0 "" }

/-- An environment in which `ffprobe` is present and reports a non-mp3
format, while the `ffmpeg` decode probe succeeds. -/
def envProbeNoMp3 : ProbeEnv :=
  { ffprobeAvailable := true
    probeRun := fun _ => ToolRes.completed 0 "wav"
    decodeRun := fun _ => ToolRes.completed 0 "" }

/-- An environment in which the `ffprobe` invocation raises (e.g. a
timeout) while the `ffmpeg` decode probe succeeds. -/
def envProbeThrows : ProbeEnv :=
  { ffprobeAvailable := true
    probeRun := fun _ => ToolRes.excThrown
    decodeRun := fun _ => ToolRes.completed 0 "" }

/-- An environment in which both external tool invocations raise. -/
def envBothThrow : ProbeEnv :=
  { ffprobeAvailable := true
    probeRun := fun _ => ToolRes.excThrown
    decodeRun := fun _ => ToolRes.excThrown }

/-- An environment in which `ffprobe` is not on the PATH. -/
def envUnavailable : ProbeEnv :=
  { ffprobeAvailable := false
    probeRun := fun _ => ToolRes.completed 0 "mp3"
    decodeRun := fun _ => ToolRes.completed 0 "" }

/-- A 151-character title: 149 letters, a space, one letter.  Sanitizing
truncates it right after the space. -/
def longTitle : List Char := List.replicate 149 'a' ++ [' ', 'b']

/-! ### Sanitizer lemmas -/

theorem collapseWsAux_cons_space_true {d : Char} (hd : pyIsSpace d = true) (ds : List Char) :
    collapseWsAux true (d :: ds) = collapseWsAux true ds := by
  simp [collapseWsAux, hd]

theorem collapseWsAux_cons_space_false {d : Char} (hd : pyIsSpace d = true) (ds : List Char) :
    collapseWsAux false (d :: ds) = ' ' :: collapseWsAux true ds := by
  simp [collapseWsAux, hd]

theorem collapseWsAux_cons_nonspace {d : Char} (hd : ¬ pyIsSpace d = true) (b : Bool)
    (ds : List Char) : collapseWsAux b (d :: ds) = d :: collapseWsAux false ds := by
  simp [collapseWsAux, hd]

theorem mem_collapseWsAux : ∀ (b : Bool) (l : List Char) (c : Char),
    c ∈ collapseWsAux b l → c = ' ' ∨ c ∈ l := by
  intro b l
  induction l generalizing b with
  | nil => intro c h; simp [collapseWsAux] at h
  | cons d ds ih =>
    intro c h
    by_cases hd : pyIsSpace d = true
    · cases b with
      | true =>
        rw [collapseWsAux_cons_space_true hd] at h
        rcases ih true c h with h1 | h1
        · exact Or.inl h1
        · exact Or.inr (List.mem_cons_of_mem _ h1)
      | false =>
        rw [collapseWsAux_cons_space_false hd] at h
        rcases List.mem_cons.mp h with h1 | h1
        · exact Or.inl h1
        · rcases ih true c h1 with h2 | h2
          · exact Or.inl h2
          · exact Or.inr (List.mem_cons_of_mem _ h2)
    · rw [collapseWsAux_cons_nonspace hd] at h
      rcases List.mem_cons.mp h with h1 | h1
      · exact Or.inr (h1 ▸ List.mem_cons_self _ _)
      · rcases ih false c h1 with h2 | h2
        · exact Or.inl h2
        · exact Or.inr (List.mem_cons_of_mem _ h2)

theorem wsOnly_collapseWsAux : ∀ (b : Bool) (l : List Char) (c : Char),
    c ∈ collapseWsAux b l → pyIsSpace c = true → c = ' ' := by
  intro b l
  induction l generalizing b with
  | nil => intro c h; simp [collapseWsAux] at h
  | cons d ds ih =>
    intro c h hc
    by_cases hd : pyIsSpace d = true
    · cases b with
      | true =>
        rw [collapseWsAux_cons_space_true hd] at h
        exact ih true c h hc
      | false =>
        rw [collapseWsAux_cons_space_false hd] at h
        rcases List.mem_cons.mp h with h1 | h1
        · exact h1
        · exact ih true c h1 hc
    · rw [collapseWsAux_cons_nonspace hd] at h
      rcases List.mem_cons.mp h with h1 | h1
      · subst h1; exact absurd hc hd
      · exact ih false c h1 hc

theorem head_collapseWsAux_true : ∀ (l : List Char) (x : Char),
    (collapseWsAux true l).head? = some x → pyIsSpace x = false := by
  intro l
  induction l with
  | nil => intro x h; simp [collapseWsAux] at h
  | cons d ds ih =>
    intro x h
    by_cases hd : pyIsSpace d = true
    · rw [collapseWsAux_cons_space_true hd] at h
      exact ih x h
    · rw [collapseWsAux_cons_nonspace hd, List.head?_cons] at h
      cases h
      exact Bool.eq_false_iff.mpr hd

theorem chain_collapseWsAux : ∀ (b : Bool) (l : List Char),
    List.Chain' noWsPair (collapseWsAux b l) := by
  intro b l
  induction l generalizing b with
  | nil => simp [collapseWsAux]
  | cons d ds ih =>
    by_cases hd : pyIsSpace d = true
    · cases b with
      | true =>
        rw [collapseWsAux_cons_space_true hd]
        exact ih true
      | false =>
        rw [collapseWsAux_cons_space_false hd]
        refine List.chain'_cons'.mpr ⟨?_, ih true⟩
        intro y hy hcontra
        have := head_collapseWsAux_true ds y hy
        rw [this] at hcontra
        exact Bool.false_ne_true hcontra.2
    · rw [collapseWsAux_cons_nonspace hd]
      refine List.chain'_cons'.mpr ⟨?_, ih false⟩
      intro y _ hcontra
      exact hd hcontra.1

theorem collapseWsAux_true_of_head (l : List Char)
    (h : ∀ x, l.head? = some x → pyIsSpace x = false) :
    collapseWsAux true l = collapseWsAux false l := by
  cases l with
  | nil => rfl
  | cons d ds =>
    have hd : ¬ pyIsSpace d = true := by
      rw [h d (by simp)]
      exact Bool.false_ne_true
    rw [collapseWsAux_cons_nonspace hd, collapseWsAux_cons_nonspace hd]

theorem collapseWs_fixed : ∀ (t : List Char),
    List.Chain' noWsPair t → (∀ c ∈ t, pyIsSpace c = true → c = ' ') →
    collapseWs t = t := by
  intro t
  induction t with
  | nil => intro _ _; rfl
  | cons d ds ih =>
    intro hch hws
    have hch' := List.chain'_cons'.mp hch
    have htail : collapseWs ds = ds :=
      ih hch'.2 (fun c hc => hws c (List.mem_cons_of_mem _ hc))
    by_cases hd : pyIsSpace d = true
    · have hd' : d = ' ' := hws d (List.mem_cons_self _ _) hd
      have hhead : ∀ x, ds.head? = some x → pyIsSpace x = false := by
        intro x hx
        have hxy := hch'.1 x hx
        unfold noWsPair at hxy
        by_contra hxx
        exact hxy ⟨hd, (Bool.not_eq_false _).mp hxx⟩
      show collapseWsAux false (d :: ds) = d :: ds
      rw [collapseWsAux_cons_space_false hd, collapseWsAux_true_of_head ds hhead]
      show ' ' :: collapseWs ds = d :: ds
      rw [htail, hd']
    · show collapseWsAux false (d :: ds) = d :: ds
      rw [collapseWsAux_cons_nonspace hd]
      show d :: collapseWs ds = d :: ds
      rw [htail]

theorem head_dropWhile_pyIsSpace : ∀ (l : List Char) (x : Char),
    (List.dropWhile pyIsSpace l).head? = some x → pyIsSpace x = false := by
  intro l
  induction l with
  | nil => intro x h; simp [List.dropWhile] at h
  | cons d ds ih =>
    intro x h
    by_cases hd : pyIsSpace d = true
    · rw [List.dropWhile_cons_of_pos hd] at h
      exact ih x h
    · rw [List.dropWhile_cons_of_neg hd, List.head?_cons] at h
      cases h
      exact Bool.eq_false_iff.mpr hd

theorem dropWhile_fixed_of_head (l : List Char)
    (h : ∀ x, l.head? = some x → pyIsSpace x = false) :
    List.dropWhile pyIsSpace l = l := by
  cases l with
  | nil => rfl
  | cons d ds =>
    have hd := h d (by simp)
    exact List.dropWhile_cons_of_neg (by simp [hd])

theorem head?_of_isPrefix : ∀ {l₁ l₂ : List α} (_ : l₁ <+: l₂) (x : α),
    l₁.head? = some x → l₂.head? = some x := by
  intro l₁ l₂ hp x hx
  rcases hp with ⟨t, ht⟩
  subst ht
  cases l₁ with
  | nil => simp at hx
  | cons a as => simpa using hx

theorem head_stripWs : ∀ (l : List Char) (x : Char),
    (stripWs l).head? = some x → pyIsSpace x = false := by
  intro l x hx
  unfold stripWs at hx
  have hpre := List.rdropWhile_prefix pyIsSpace (List.dropWhile pyIsSpace l)
  exact head_dropWhile_pyIsSpace l x (head?_of_isPrefix hpre x hx)

theorem stripWs_subset (l : List Char) : stripWs l ⊆ l := by
  unfold stripWs
  intro c hc
  have h1 := (List.rdropWhile_prefix pyIsSpace (List.dropWhile pyIsSpace l)).sublist.subset hc
  exact List.dropWhile_subset pyIsSpace h1

theorem stripWs_chain (l : List Char) (h : List.Chain' noWsPair l) :
    List.Chain' noWsPair (stripWs l) := by
  unfold stripWs
  have h1 : List.Chain' noWsPair (List.dropWhile pyIsSpace l) :=
    List.Chain'.suffix h (List.dropWhile_suffix pyIsSpace)
  exact List.Chain'.prefix h1 (List.rdropWhile_prefix pyIsSpace _)

theorem stripWs_fixed (l : List Char)
    (hh : ∀ x, l.head? = some x → pyIsSpace x = false)
    (hl : ∀ x, l.getLast? = some x → pyIsSpace x = false) :
    stripWs l = l := by
  unfold stripWs
  rw [dropWhile_fixed_of_head l hh]
  rw [List.rdropWhile_eq_self_iff]
  intro hne
  have := hl (l.getLast hne) (List.getLast?_eq_getLast l hne)
  simp [this]

theorem head?_take : ∀ (n : Nat) (l : List α) (x : α),
    (l.take n).head? = some x → l.head? = some x := by
  intro n l x h
  cases l with
  | nil => simp at h
  | cons a as =>
    cases n with
    | zero => simp at h
    | succ n => simpa using h

/-! ### Invariants of the sanitizer output -/

theorem safe_filename_not_banned (s : List Char) (m : Nat) :
    ∀ c ∈ safe_filename s m, bannedChars.contains c = false := by
  intro c hc
  have hsub : c ∈ stripWs (collapseWs (removeBanned s)) := by
    unfold safe_filename at hc
    by_cases hlen : m < (stripWs (collapseWs (removeBanned s))).length
    · rw [if_pos hlen] at hc
      exact List.take_subset _ _ hc
    · rwa [if_neg hlen] at hc
  have h2 : c ∈ collapseWs (removeBanned s) := stripWs_subset _ hsub
  rcases mem_collapseWsAux false _ c h2 with h3 | h3
  · subst h3; decide
  · unfold removeBanned at h3
    rw [List.mem_filter] at h3
    simpa using h3.2

theorem safe_filename_chain (s : List Char) (m : Nat) :
    List.Chain' noWsPair (safe_filename s m) := by
  unfold safe_filename
  have h1 : List.Chain' noWsPair (stripWs (collapseWs (removeBanned s))) :=
    stripWs_chain _ (chain_collapseWsAux false _)
  by_cases hlen : m < (stripWs (collapseWs (removeBanned s))).length
  · rw [if_pos hlen]
    exact List.Chain'.take h1 m
  · rwa [if_neg hlen]

theorem safe_filename_length (s : List Char) (m : Nat) :
    (safe_filename s m).length ≤ m := by
  unfold safe_filename
  by_cases hlen : m < (stripWs (collapseWs (removeBanned s))).length
  · rw [if_pos hlen]
    simp [List.length_take]
  · rw [if_neg hlen]
    exact Nat.le_of_not_lt hlen

theorem safe_filename_wsOnly (s : List Char) (m : Nat) :
    ∀ c ∈ safe_filename s m, pyIsSpace c = true → c = ' ' := by
  intro c hc hws
  have hsub : c ∈ stripWs (collapseWs (removeBanned s)) := by
    unfold safe_filename at hc
    by_cases hlen : m < (stripWs (collapseWs (removeBanned s))).length
    · rw [if_pos hlen] at hc
      exact List.take_subset _ _ hc
    · rwa [if_neg hlen] at hc
  exact wsOnly_collapseWsAux false _ c (stripWs_subset _ hsub) hws

theorem safe_filename_head (s : List Char) (m : Nat) :
    ∀ x, (safe_filename s m).head? = some x → pyIsSpace x = false := by
  intro x hx
  unfold safe_filename at hx
  by_cases hlen : m < (stripWs (collapseWs (removeBanned s))).length
  · rw [if_pos hlen] at hx
    exact head_stripWs _ x (head?_take m _ x hx)
  · rw [if_neg hlen] at hx
    exact head_stripWs _ x hx

/-! ### Claim C1 -/

/-- C1: for every input string and every `maxLength`, the output of the
filename sanitizer `safe_filename` contains none of the characters
`\\ / * ? : " < > |`, has no two consecutive whitespace characters
anywhere (hence no interior run longer than one), and is at most
`maxLength` characters long. -/
theorem claim_C1 (s : List Char) (m : Nat) :
    (∀ c ∈ safe_filename s m, bannedChars.contains c = false) ∧
    List.Chain' noWsPair (safe_filename s m) ∧
    (safe_filename s m).length ≤ m :=
  ⟨safe_filename_not_banned s m, safe_filename_chain s m, safe_filename_length s m⟩

/-- Witness: C1 instantiated on a concrete title. -/
theorem claim_C1_witness :
    List.Chain' noWsPair (safe_filename "My / Song?.mp3".toList 150) ∧
    (safe_filename "My / Song?.mp3".toList 150).length ≤ 150 :=
  ⟨(claim_C1 "My / Song?.mp3".toList 150).2.1, (claim_C1 "My / Song?.mp3".toList 150).2.2⟩

/-! ### Claim C2 -/

/-- C2 counterexample: a 151-character title whose 150-character hard cut
ends directly after a space.  The first sanitization leaves that trailing
space (truncation happens after stripping), so the second sanitization
strips it and shortens the string again: `sanitize` is not idempotent. -/
theorem claim_C2_counterexample :
    safe_filename (safe_filename longTitle defaultMaxLength) defaultMaxLength
      ≠ safe_filename longTitle defaultMaxLength := by
  set_option maxRecDepth 8000 in decide

/-- C2 (amended): `sanitize` is idempotent on every string whose sanitized
form does not end in a whitespace character — in particular whenever no
truncation occurs.  (Truncation at position 150 can expose a trailing
space, which only the second application strips.) -/
theorem claim_C2_amended (s : List Char)
    (h : ((safe_filename s defaultMaxLength).getLast?.all fun c => !pyIsSpace c) = true) :
    safe_filename (safe_filename s defaultMaxLength) defaultMaxLength
      = safe_filename s defaultMaxLength := by
  have hlast : ∀ x, (safe_filename s defaultMaxLength).getLast? = some x →
      pyIsSpace x = false := by
    intro x hx
    rw [hx] at h
    simpa using h
  have hrb : removeBanned (safe_filename s defaultMaxLength)
      = safe_filename s defaultMaxLength := by
    unfold removeBanned
    rw [List.filter_eq_self]
    intro a ha
    have hnb := safe_filename_not_banned s defaultMaxLength a ha
    simp only [Bool.not_eq_true', hnb]
  have hcol : collapseWs (safe_filename s defaultMaxLength)
      = safe_filename s defaultMaxLength :=
    collapseWs_fixed _ (safe_filename_chain s defaultMaxLength)
      (safe_filename_wsOnly s defaultMaxLength)
  have hstr : stripWs (safe_filename s defaultMaxLength)
      = safe_filename s defaultMaxLength :=
    stripWs_fixed _ (safe_filename_head s defaultMaxLength) hlast
  have hlen : ¬(defaultMaxLength < (safe_filename s defaultMaxLength).length) :=
    Nat.not_lt.mpr (safe_filename_length s defaultMaxLength)
  conv_lhs => rw [safe_filename]
  rw [hrb, hcol, hstr, if_neg hlen]

/-- Witness: the amended C2 applied to a concrete short title. -/
theorem claim_C2_amended_witness :
    safe_filename (safe_filename "ab c".toList defaultMaxLength) defaultMaxLength
      = safe_filename "ab c".toList defaultMaxLength :=
  claim_C2_amended "ab c".toList (by decide)

/-! ### Placement and pipeline lemmas -/

theorem findFree_not_mem (dest : List String) (stem : String) :
    ∀ (fuel i : Nat) (d : String), findFree dest stem i fuel = some d → d ∉ dest := by
  intro fuel
  induction fuel with
  | zero => intro i d h; simp [findFree] at h
  | succ fuel ih =>
    intro i d h
    by_cases hmem : collisionName stem i ∈ dest
    · rw [show findFree dest stem i (fuel + 1) = findFree dest stem (i + 1) fuel from by
        simp [findFree, hmem]] at h
      exact ih (i + 1) d h
    · rw [show findFree dest stem i (fuel + 1) = some (collisionName stem i) from by
        simp [findFree, hmem]] at h
      cases h
      exact hmem

theorem resolveDest_not_mem (dest : List String) (stem : String) (d : String)
    (h : resolveDest dest stem = some d) : d ∉ dest := by
  simp only [resolveDest] at h
  by_cases hmem : (stem ++ ".mp3") ∈ dest
  · rw [if_pos hmem] at h
    exact findFree_not_mem dest stem (dest.length + 1) 1 d h
  · rw [if_neg hmem] at h
    cases h
    exact hmem

theorem fsReplace_dest_mono (s : FsState) (src dst : String) :
    s.destFiles ⊆ (fsReplace s src dst).destFiles := by
  show s.destFiles ⊆ (if dst ∈ s.destFiles then s.destFiles else s.destFiles ++ [dst])
  by_cases hmem : dst ∈ s.destFiles
  · rw [if_pos hmem]
    exact fun a ha => ha
  · rw [if_neg hmem]
    exact List.subset_append_left _ _

theorem fsReplace_mem_dest (s : FsState) (src dst : String) :
    dst ∈ (fsReplace s src dst).destFiles := by
  show dst ∈ (if dst ∈ s.destFiles then s.destFiles else s.destFiles ++ [dst])
  by_cases hmem : dst ∈ s.destFiles
  · rw [if_pos hmem]; exact hmem
  · rw [if_neg hmem]; simp

theorem pc_cons_rejected (env : ProbeEnv) {stem : String} (rest : List String) (s : FsState)
    (h : (validateCandidate env stem).1 = false) :
    processCandidates env (stem :: rest) s
      = processCandidates env rest (fsUnlinkTmp s (stem ++ ".mp3")) := by
  simp [processCandidates, h]

theorem pc_cons_none (env : ProbeEnv) {stem : String} (rest : List String) (s : FsState)
    (h : ¬ (validateCandidate env stem).1 = false)
    (hr : resolveDest s.destFiles (safeFilenameStr stem) = none) :
    processCandidates env (stem :: rest) s = processCandidates env rest s := by
  simp [processCandidates, h, hr]

theorem pc_cons_some_fst (env : ProbeEnv) {stem d : String} (rest : List String) (s : FsState)
    (h : ¬ (validateCandidate env stem).1 = false)
    (hr : resolveDest s.destFiles (safeFilenameStr stem) = some d) :
    (processCandidates env (stem :: rest) s).1
      = d :: (processCandidates env rest (fsReplace s (stem ++ ".mp3") d)).1 := by
  simp [processCandidates, h, hr]

theorem pc_cons_some_snd (env : ProbeEnv) {stem d : String} (rest : List String) (s : FsState)
    (h : ¬ (validateCandidate env stem).1 = false)
    (hr : resolveDest s.destFiles (safeFilenameStr stem) = some d) :
    (processCandidates env (stem :: rest) s).2
      = (processCandidates env rest (fsReplace s (stem ++ ".mp3") d)).2 := by
  simp [processCandidates, h, hr]

theorem processCandidates_dest_mono (env : ProbeEnv) :
    ∀ (cands : List String) (s : FsState),
      s.destFiles ⊆ (processCandidates env cands s).2.destFiles := by
  intro cands
  induction cands with
  | nil => intro s a ha; exact ha
  | cons stem rest ih =>
    intro s
    by_cases hv : (validateCandidate env stem).1 = false
    · rw [pc_cons_rejected env rest s hv]
      exact ih (fsUnlinkTmp s (stem ++ ".mp3"))
    · cases hr : resolveDest s.destFiles (safeFilenameStr stem) with
      | none =>
        rw [pc_cons_none env rest s hv hr]
        exact ih s
      | some d =>
        rw [pc_cons_some_snd env rest s hv hr]
        intro a ha
        exact ih _ (fsReplace_dest_mono s (stem ++ ".mp3") d ha)

theorem processCandidates_accepted (env : ProbeEnv) :
    ∀ (cands : List String) (s : FsState) (a : String),
      a ∈ (processCandidates env cands s).1 →
      a ∈ (processCandidates env cands s).2.destFiles ∧ a ∉ s.destFiles := by
  intro cands
  induction cands with
  | nil => intro s a ha; simp [processCandidates] at ha
  | cons stem rest ih =>
    intro s a ha
    by_cases hv : (validateCandidate env stem).1 = false
    · rw [pc_cons_rejected env rest s hv] at ha ⊢
      exact ih (fsUnlinkTmp s (stem ++ ".mp3")) a ha
    · cases hr : resolveDest s.destFiles (safeFilenameStr stem) with
      | none =>
        rw [pc_cons_none env rest s hv hr] at ha ⊢
        exact ih s a ha
      | some d =>
        rw [pc_cons_some_fst env rest s hv hr] at ha
        rw [pc_cons_some_snd env rest s hv hr]
        rcases List.mem_cons.mp ha with h1 | h1
        · subst h1
          refine ⟨?_, resolveDest_not_mem _ _ _ hr⟩
          exact processCandidates_dest_mono env rest _
            (fsReplace_mem_dest s (stem ++ ".mp3") a)
        · have h2 := ih (fsReplace s (stem ++ ".mp3") d) a h1
          exact ⟨h2.1, fun hmem => h2.2 (fsReplace_dest_mono s (stem ++ ".mp3") d hmem)⟩

theorem processCandidates_nodup (env : ProbeEnv) :
    ∀ (cands : List String) (s : FsState), (processCandidates env cands s).1.Nodup := by
  intro cands
  induction cands with
  | nil => intro s; simp [processCandidates]
  | cons stem rest ih =>
    intro s
    by_cases hv : (validateCandidate env stem).1 = false
    · rw [pc_cons_rejected env rest s hv]
      exact ih (fsUnlinkTmp s (stem ++ ".mp3"))
    · cases hr : resolveDest s.destFiles (safeFilenameStr stem) with
      | none =>
        rw [pc_cons_none env rest s hv hr]
        exact ih s
      | some d =>
        rw [pc_cons_some_fst env rest s hv hr]
        rw [List.nodup_cons]
        refine ⟨?_, ih (fsReplace s (stem ++ ".mp3") d)⟩
        intro hmem
        have h2 := processCandidates_accepted env rest (fsReplace s (stem ++ ".mp3") d) d hmem
        exact h2.2 (fsReplace_mem_dest s (stem ++ ".mp3") d)

/-! ### Claim C3 -/

/-- C3: the placement resolver never returns a name already present in
the destination listing (it counts up `(1)`, `(2)`, … until a free name
is found), and concretely: with `Song.mp3` already present, placing two
candidates whose raw stems sanitize to `Song` yields `Song (1).mp3` and
then `Song (2).mp3`. -/
theorem claim_C3 :
    (∀ (dest : List String) (stem d : String),
      resolveDest dest stem = some d → d ∉ dest) ∧
    processCandidates envAcceptAll ["Song?", "Song:"]
      { tmpExists := true, tmpFiles := ["Song?.mp3", "Song:.mp3"], destFiles := ["Song.mp3"] }
    = (["Song (1).mp3", "Song (2).mp3"],
       { tmpExists := true, tmpFiles := [],
         destFiles := ["Song.mp3", "Song (1).mp3", "Song (2).mp3"] }) :=
  ⟨resolveDest_not_mem, by decide⟩

/-- Witness: C3's freshness property applied to one concrete collision. -/
theorem claim_C3_witness : "Song (1).mp3" ∉ ["Song.mp3"] :=
  claim_C3.1 ["Song.mp3"] "Song" "Song (1).mp3" (by decide)

/-! ### Claim C4 -/

/-- C4: after `download_and_validate` finishes — whether the external
fetch raised or returned, and whatever the per-candidate outcomes — the
scratch temporary directory no longer exists and holds no files
(the `with tempfile.TemporaryDirectory()` scope deletes it on every exit
path). -/
theorem claim_C4 (env : ProbeEnv) (fetchResult : Except String (List String))
    (dest0 : List String) :
    (download_and_validate env fetchResult dest0).2.tmpExists = false ∧
    (download_and_validate env fetchResult dest0).2.tmpFiles = [] := by
  cases fetchResult <;> exact ⟨rfl, rfl⟩

/-! ### Claim C5 -/

/-- C5: a pipeline run only ever adds files to the destination
directory: every name present before the run is present after it, and
the accepted files are pairwise distinct new names that are all present
at the end — nothing pre-existing and nothing already placed is deleted
or overwritten. -/
theorem claim_C5 (env : ProbeEnv) (fetchResult : Except String (List String))
    (dest0 : List String) :
    dest0 ⊆ (download_and_validate env fetchResult dest0).2.destFiles ∧
    ∀ acc, (download_and_validate env fetchResult dest0).1 = Except.ok acc →
      acc.Nodup ∧ ∀ a ∈ acc,
        a ∈ (download_and_validate env fetchResult dest0).2.destFiles ∧ a ∉ dest0 := by
  cases fetchResult with
  | error e =>
    refine ⟨fun a ha => ha, ?_⟩
    intro acc hacc
    simp [download_and_validate] at hacc
  | ok stems =>
    constructor
    · intro a ha
      exact processCandidates_dest_mono env stems _ ha
    · intro acc hacc
      have hacc' : (processCandidates env stems
          { tmpExists := true, tmpFiles := stems.map (fun t => t ++ ".mp3"),
            destFiles := dest0 }).1 = acc := by
        simpa [download_and_validate] using hacc
      constructor
      · rw [← hacc']
        exact processCandidates_nodup env stems _
      · intro a ha
        rw [← hacc'] at ha
        exact processCandidates_accepted env stems _ a ha

/-- Witness: C5 applied to a run that accepts one candidate into an
initially empty destination. -/
theorem claim_C5_witness :
    "Song.mp3" ∈ (download_and_validate envAcceptAll (Except.ok ["Song"]) []).2.destFiles ∧
    "Song.mp3" ∉ ([] : List String) :=
  ((claim_C5 envAcceptAll (Except.ok ["Song"]) []).2 ["Song.mp3"] (by rfl)).2
    "Song.mp3" (by simp)

/-! ### Claim C6 -/

/-- C6 counterexample: with `ffprobe` available on the PATH and its
report (`"wav"`) not containing the `mp3` token, the fallback decode
check still runs (second component `true`) and even accepts the
candidate — the claim that the fallback runs only when the inspection
capability is unavailable, and that such a candidate is rejected without
the fallback, is false of the code. -/
theorem claim_C6_counterexample :
    envProbeNoMp3.ffprobeAvailable = true ∧
    envProbeNoMp3.probeRun "Song.mp3" = ToolRes.completed 0 "wav" ∧
    containsMp3 "wav" = false ∧
    validateCandidate envProbeNoMp3 "Song" = (true, true) :=
  ⟨rfl, rfl, by decide, by decide⟩

/-- C6 (amended): the fallback decode check runs exactly when the primary
`ffprobe` check does not accept — when the tool is unavailable, but also
when it is available and its report lacks the `mp3` token (such a
candidate is then rejected only if the fallback also fails). -/
theorem claim_C6_amended (env : ProbeEnv) (stem : String) :
    ((validateCandidate env stem).2 = true ↔
      ffprobe_recognizes_mp3 env (stem ++ ".mp3") = false) ∧
    (env.ffprobeAvailable = false → (validateCandidate env stem).2 = true) := by
  have hmain : (validateCandidate env stem).2 = true ↔
      ffprobe_recognizes_mp3 env (stem ++ ".mp3") = false := by
    by_cases hok : ffprobe_recognizes_mp3 env (stem ++ ".mp3") = false
    · cases hdec : env.decodeRun (stem ++ ".mp3") <;>
        simp [validateCandidate, hok, hdec]
    · simp [validateCandidate, hok]
  refine ⟨hmain, ?_⟩
  intro hun
  refine hmain.mpr ?_
  simp [ffprobe_recognizes_mp3, hun]

/-- Witness: with `ffprobe` unavailable the fallback decode runs. -/
theorem claim_C6_amended_witness :
    (validateCandidate envUnavailable "file").2 = true :=
  (claim_C6_amended envUnavailable "file").2 rfl

/-! ### Claim C7 -/

/-- C7 counterexample: the `ffprobe` invocation raises (e.g. a timeout),
yet the candidate is accepted, because the fallback `ffmpeg` decode
succeeds — an exception while invoking an external tool does not always
result in the candidate being rejected. -/
theorem claim_C7_counterexample :
    envProbeThrows.probeRun "Song.mp3" = ToolRes.excThrown ∧
    (validateCandidate envProbeThrows "Song").1 = true :=
  ⟨rfl, by decide⟩

/-- C7 (amended): exceptions from the external tools are never
propagated out of validation and the pipeline continues with the
remaining candidates: if both tool invocations raise, the candidate is
rejected; a rejected candidate is simply discarded and processing
continues with the rest; and a run whose fetch succeeded always returns
normally (`Except.ok`), whatever the tool outcomes.  (An exception in
the inspection tool alone only fails the primary check: the fallback
decode still runs and may accept the candidate.) -/
theorem claim_C7_amended (env : ProbeEnv) (stem : String) (rest : List String) (s : FsState) :
    (env.probeRun (stem ++ ".mp3") = ToolRes.excThrown →
      env.decodeRun (stem ++ ".mp3") = ToolRes.excThrown →
      (validateCandidate env stem).1 = false) ∧
    ((validateCandidate env stem).1 = false →
      processCandidates env (stem :: rest) s
        = processCandidates env rest (fsUnlinkTmp s (stem ++ ".mp3"))) ∧
    (∀ (stems dest0 : List String), ∃ acc,
      (download_and_validate env (Except.ok stems) dest0).1 = Except.ok acc) := by
  refine ⟨?_, ?_, ?_⟩
  · intro hp hdec
    have hok : ffprobe_recognizes_mp3 env (stem ++ ".mp3") = false := by
      unfold ffprobe_recognizes_mp3
      by_cases hav : env.ffprobeAvailable = false
      · rw [if_pos hav]
      · rw [if_neg hav, hp]
    simp [validateCandidate, hok, hdec]
  · intro h
    exact pc_cons_rejected env rest s h
  · intro stems dest0
    exact ⟨_, rfl⟩

/-- Witness: the amended C7 on an environment where both tools raise. -/
theorem claim_C7_amended_witness :
    (validateCandidate envBothThrow "Song").1 = false :=
  (claim_C7_amended envBothThrow "Song" []
    { tmpExists := true, tmpFiles := [], destFiles := [] }).1 rfl rfl

/-! ### Claim C8 -/

/-- C8: contrary to its own `--no-playlist` help text ("Do not download
playlists; only the provided URL"), the CLI ignores the flag: the
`if args.noplaylist: pass` branch in `main` has no effect and
`download_mp3` hard-codes `"noplaylist": False` in the options passed to
the external fetch capability — even when the flag is set on a playlist
URL. -/
theorem claim_C8 :
    (cliMainFetchOpts
      { url := "https://www.youtube.com/playlist?list=PLx", output := "out",
        quality := "192", noplaylist := true }).noplaylist = false ∧
    ∀ args : CliArgs, (cliMainFetchOpts args).noplaylist = false :=
  ⟨rfl, fun _ => rfl⟩

/-! ### Claim C9 -/

/-- C9 counterexample: the CLI accepts a bitrate outside the allowed set
and still reaches the external fetch call, configured with that invalid
value — the request is not rejected before the external call. -/
theorem claim_C9_counterexample :
    "999" ∉ streamlitBitrateOptions.map (fun n => toString n) ∧
    cliRunsFetchWith
      { url := "https://youtu.be/x", output := "out", quality := "999", noplaylist := false }
      = some (cliYdlOpts "999") :=
  ⟨by decide, rfl⟩

/-- C9 (amended): the web UI's bitrate selector offers only values from
{128, 192, 256, 320}, so an invalid bitrate cannot be submitted through
it; the CLI performs no bitrate validation at all — every request
reaches the external fetch call with its quality string passed through
verbatim. -/
theorem claim_C9_amended :
    (∀ b ∈ streamlitBitrateOptions, b = 128 ∨ b = 192 ∨ b = 256 ∨ b = 320) ∧
    ∀ args : CliArgs, cliRunsFetchWith args = some (cliMainFetchOpts args) ∧
      (cliMainFetchOpts args).preferredquality = args.quality :=
  ⟨by decide, fun _ => ⟨rfl, rfl⟩⟩

/-- Witness: the amended C9 on a concrete CLI invocation. -/
theorem claim_C9_amended_witness :
    cliRunsFetchWith
      { url := "https://youtu.be/x", output := "out", quality := "320", noplaylist := false }
      = some (cliMainFetchOpts
        { url := "https://youtu.be/x", output := "out", quality := "320", noplaylist := false }) :=
  (claim_C9_amended.2
    { url := "https://youtu.be/x", output := "out", quality := "320", noplaylist := false }).1

/-! ### Claim C10 -/

/-- C10: a title consisting only of stripped characters sanitizes to the
empty string, and such candidates are still placed: the first becomes the
extension-only hidden name `.mp3`, and subsequent empty-stem candidates
get the collision counter, becoming ` (1).mp3` and ` (2).mp3`. -/
theorem claim_C10 :
    safe_filename "***".toList defaultMaxLength = [] ∧
    processCandidates envAcceptAll ["***", "<><>", "?"]
      { tmpExists := true, tmpFiles := ["***.mp3", "<><>.mp3", "?.mp3"], destFiles := [] }
    = ([".mp3", " (1).mp3", " (2).mp3"],
       { tmpExists := true, tmpFiles := [],
         destFiles := [".mp3", " (1).mp3", " (2).mp3"] }) :=
  ⟨by decide, by decide⟩

end YtMp3
